import Mathlib

/-!
Verification of the Xrand random-number subsystem core against its
specification.  The C sources are shallowly embedded: byte buffers become
`List Nat` (each element a byte value `< 256`, with explicit `% 256` where the
C code truncates), machine words become `Nat` with explicit `% 2^32`
reductions at overflow points, and the external cryptographic primitives
(SHA-512, HMAC-SHA-512, AES-256) become function parameters, since the
specification treats them as external collaborators.
-/

namespace Xrand

/-- Byte buffers are lists of byte values. -/
abbrev Bytes := List Nat

/-- Byte `i` (little-endian position) of the natural number `x`. -/
def byteOf (x i : Nat) : Nat := x / 256 ^ i % 256

/-- The 32-bit byte-swap primitive `bswap32` from `common/endianness.h`:
reverses the four bytes of a 32-bit word. -/
def bswap32 (x : Nat) : Nat :=
  byteOf x 0 * 2 ^ 24 + byteOf x 1 * 2 ^ 16 + byteOf x 2 * 2 ^ 8 + byteOf x 3

/-- Value of a byte string read as a little-endian integer (the layout of a
`uint32_t` aliasing a byte array on the little-endian target). -/
def leVal (bs : Bytes) : Nat := bs.foldr (fun b a => a * 256 + b) 0

/-- Value of a byte string read as a big-endian integer. -/
def beVal (bs : Bytes) : Nat := bs.foldl (fun a b => a * 256 + b) 0

/-- The four bytes of a 32-bit word in little-endian (memory) order. -/
def leBytes32 (x : Nat) : Bytes := [byteOf x 0, byteOf x 1, byteOf x 2, byteOf x 3]

/-- The four bytes of a 32-bit word in big-endian order. -/
def beBytes32 (x : Nat) : Bytes := [byteOf x 3, byteOf x 2, byteOf x 1, byteOf x 0]

/-! ## CTR_DRBG (src/rand/ctr_drbg.c, ctr_drbg.h)

State per `CTR_DRBG_STATE`: 16-byte vector `V`, 32-byte AES-256 key `K`,
64-bit reseed counter.  The AES-256 block encryption (key expansion plus
`aes256_encr_block`) is abstracted as `enc : Bytes → Bytes → Bytes` taking the
32-byte key and the 16-byte block. -/

/-- `status_t` from `common/defs.h`. -/
inductive status_t where
  | FAILURE : status_t
  | SUCCESS : status_t
deriving DecidableEq

structure CTR_DRBG_STATE where
  V : Bytes
  K : Bytes
  counter : Nat
deriving DecidableEq

/-- `CTR_DRBG_INCR32(x, n)`:
`state->V.words[3] = BSWAP32(BSWAP32(state->V.words[3]) + n)`.
`V.words[3]` aliases bytes 12..15 of `V` in little-endian layout; the addition
is 32-bit (wraparound mod `2^32`). -/
def CTR_DRBG_INCR32 (V : Bytes) (n : Nat) : Bytes :=
  V.take 12 ++ leBytes32 (bswap32 ((bswap32 (leVal (V.drop 12)) + n) % 2 ^ 32))

/-- `ctr_drbg_update` (ctr_drbg.c lines 64-91).  Three blocks are produced by
increment-then-encrypt from the old key schedule, `provided_data` is XORed
into the prefix of `temp`, and `K`, `V` are reassigned from `temp`.  Returns
`none` for the `FAILURE` path (`data_len > CTR_DRBG_ENTROPY_LEN`). -/
def ctr_drbg_update (enc : Bytes → Bytes → Bytes) (state : CTR_DRBG_STATE)
    (provided_data : Bytes) : Option CTR_DRBG_STATE :=
  if provided_data.length > 48 then none
  else
    let V1 := CTR_DRBG_INCR32 state.V 1
    let V2 := CTR_DRBG_INCR32 V1 1
    let V3 := CTR_DRBG_INCR32 V2 1
    let temp := enc state.K V1 ++ enc state.K V2 ++ enc state.K V3
    let temp := List.zipWith Nat.xor (temp.take provided_data.length) provided_data
      ++ temp.drop provided_data.length
    some { V := (temp.drop 32).take 16, K := temp.take 32, counter := state.counter }

/-- The block-generation loop of `ctr_drbg_generate` (lines 144-158): full
blocks while `out_len >= AES_BLOCK_SIZE`, then a truncated block for the
remainder.  Returns the produced output and the final `V`. -/
def ctr_drbg_genBlocks (enc : Bytes → Bytes → Bytes) (K V : Bytes)
    (out_len : Nat) : Bytes × Bytes :=
  if h : out_len ≥ 16 then
    let V1 := CTR_DRBG_INCR32 V 1
    let rest := ctr_drbg_genBlocks enc K V1 (out_len - 16)
    (enc K V1 ++ rest.1, rest.2)
  else if out_len ≠ 0 then
    let V1 := CTR_DRBG_INCR32 V 1
    ((enc K V1).take out_len, V1)
  else ([], V)
termination_by out_len
decreasing_by simp_wf; omega

/-- `ctr_drbg_generate` (ctr_drbg.c lines 121-168).  The returned triple is
(status, final state, produced output); the early `FAILURE` returns leave the
state untouched and produce no output, mirroring the C control flow in which
they precede every state mutation. -/
def ctr_drbg_generate (enc : Bytes → Bytes → Bytes) (state : CTR_DRBG_STATE)
    (out_len : Nat) (additional_input : Bytes) :
    status_t × CTR_DRBG_STATE × Bytes :=
  if out_len > 2 ^ 16 then (.FAILURE, state, [])
  else if additional_input.length > 48 then (.FAILURE, state, [])
  else if state.counter > 2 ^ 48 then (.FAILURE, state, [])
  else
    match
      (if additional_input.length > 0
       then ctr_drbg_update enc state additional_input
       else some state) with
    | none => (.FAILURE, state, [])
    | some st1 =>
      let gen := ctr_drbg_genBlocks enc st1.K st1.V out_len
      match ctr_drbg_update enc { st1 with V := gen.2 } additional_input with
      | none => (.FAILURE, { st1 with V := gen.2 }, gen.1)
      | some st2 => (.SUCCESS, { st2 with counter := st2.counter + 1 }, gen.1)

/-- Modelled from the spec (§4.3 Update / C5): increment only the last 32 bits
of `V`, read as a big-endian counter, by 1 with wraparound mod `2^32`; the
upper 96 bits are untouched. -/
def spec_incr32 (V : Bytes) : Bytes :=
  V.take 12 ++ beBytes32 ((beVal (V.drop 12) + 1) % 2 ^ 32)

/-- Modelled from the spec (§4.3 Update / C5): produce three 16-byte blocks by
increment-then-encrypt, XOR the provided data into the prefix of `temp`, then
`K = temp[0..32)`, `V = temp[32..48)`. -/
def spec_ctr_drbg_update (enc : Bytes → Bytes → Bytes) (state : CTR_DRBG_STATE)
    (data : Bytes) : CTR_DRBG_STATE :=
  let V1 := spec_incr32 state.V
  let V2 := spec_incr32 V1
  let V3 := spec_incr32 V2
  let temp := enc state.K V1 ++ enc state.K V2 ++ enc state.K V3
  let temp := List.zipWith Nat.xor (temp.take data.length) data ++ temp.drop data.length
  { V := (temp.drop 32).take 16, K := temp.take 32, counter := state.counter }

/-- A trivial concrete block cipher used to instantiate witnesses. -/
def enc0 : Bytes → Bytes → Bytes := fun _ _ => List.replicate 16 0

/-- A concrete CTR_DRBG state used to instantiate witnesses. -/
def ctrSt0 : CTR_DRBG_STATE :=
  { V := List.range 16, K := List.replicate 32 7, counter := 1 }

/-! ## Hash_DRBG derivation function (src/rand/hash_drbg.c lines 47-114)

SHA-512 is abstracted as `sha : Bytes → Bytes` (64-byte digests). -/

/-- The block loop of `hash_drbg_df`: each round hashes
`counter || output_len_bits_str || input` (the counter is a `uint8_t`, hence
`% 256`); a round with fewer than 64 bytes remaining emits a truncated block
and stops. -/
def hash_drbg_df_blocks (sha : Bytes → Bytes) (lenStr input : Bytes)
    (counter remaining : Nat) : Bytes :=
  let md := sha ((counter % 256) :: (lenStr ++ input))
  if remaining < 64 then md.take remaining
  else md.take 64 ++ hash_drbg_df_blocks sha lenStr input (counter + 1) (remaining - 64)
termination_by remaining
decreasing_by simp_wf; omega

/-- `hash_drbg_df(input, output, output_len)`: `none` models the
`ERR_HASH_DRBG_BAD_ARGS` return for `output_len > 255 * HASH_DBRG_SHA512_OUTLEN`;
otherwise the output buffer contents.  `output_len_bits_str` is
`output_len << 3` serialized big-endian on 32 bits. -/
def hash_drbg_df (sha : Bytes → Bytes) (input : Bytes) (output_len : Nat) :
    Option Bytes :=
  if output_len > 255 * 64 then none
  else some (hash_drbg_df_blocks sha (beBytes32 (output_len * 8)) input 1 output_len)

/-- Modelled from the spec (§4.4 Hash_df / C6): emit `ceil(n_bytes / 64)`
blocks, block `i` (counter `i = 1, 2, …`) being
`SHA512(counter_byte || n_bytes*8 as 32-bit big-endian || input)`, truncated
to `n_bytes`. -/
def spec_hash_df (sha : Bytes → Bytes) (input : Bytes) (n : Nat) : Bytes :=
  (((List.range ((n + 63) / 64)).map
    fun j => sha ((j + 1) :: (beBytes32 (n * 8) ++ input))).flatten).take n

/-- A trivial concrete hash used to instantiate witnesses. -/
def sha0 : Bytes → Bytes := fun _ => List.replicate 64 0

/-! ## HMAC_DRBG (src/rand/hmac_drbg.c, rngw32.h)

HMAC-SHA-512 is abstracted as `hmac : Bytes → Bytes → Bytes` (key, message).
Result codes are the `ERR_HMAC_DRBG_*` integers. -/

structure HMAC_DRBG_STATE where
  K : Bytes
  V : Bytes
  reseed_counter : Nat
  flags : Nat
deriving DecidableEq

/-- `hmac_drbg_update` (hmac_drbg.c lines 53-131).  The returned pair is
(result code, state).  `K = HMAC(K, V || 0x00 || data)`, `V = HMAC(K, V)`,
and, when `data` is non-empty, the same two steps again with `0x01`. -/
def hmac_drbg_update (hmac : Bytes → Bytes → Bytes) (state : HMAC_DRBG_STATE)
    (data : Bytes) : Int × HMAC_DRBG_STATE :=
  if data.length > 2 ^ 32 then (-3, state)
  else
    let K1 := hmac state.K (state.V ++ 0 :: data)
    let V1 := hmac K1 state.V
    if data.length = 0 then (0, { state with K := K1, V := V1 })
    else
      let K2 := hmac K1 (V1 ++ 1 :: data)
      let V2 := hmac K2 V1
      (0, { state with K := K2, V := V2 })

/-- The output loop of `hmac_drbg_generate` (lines 289-310): full 64-byte
blocks `V = HMAC(K, V)` copied to the output, then a truncated block.
Returns (output, final V). -/
def hmac_drbg_genBlocks (hmac : Bytes → Bytes → Bytes) (K V : Bytes)
    (remaining : Nat) : Bytes × Bytes :=
  if h : remaining ≥ 64 then
    let V1 := hmac K V
    let rest := hmac_drbg_genBlocks hmac K V1 (remaining - 64)
    (V1 ++ rest.1, rest.2)
  else if remaining ≠ 0 then
    let V1 := hmac K V
    (V1.take remaining, V1)
  else ([], V)
termination_by remaining
decreasing_by simp_wf; omega

/-- `hmac_drbg_generate` (hmac_drbg.c lines 251-321).  The triple is
(result code, state, output).  All argument checks precede any state
mutation, as in the C control flow. -/
def hmac_drbg_generate (hmac : Bytes → Bytes → Bytes) (state : HMAC_DRBG_STATE)
    (output_len : Nat) (additional_input : Bytes) :
    Int × HMAC_DRBG_STATE × Bytes :=
  if state.flags % 2 = 0 then (-1, state, [])
  else if output_len > 2 ^ 16 then (-3, state, [])
  else if additional_input.length > 2 ^ 32 then (-3, state, [])
  else if state.reseed_counter > 2 ^ 48 then (-6, state, [])
  else
    let u1 := if additional_input.length ≠ 0
      then hmac_drbg_update hmac state additional_input else (0, state)
    if u1.1 ≠ 0 then (u1.1, u1.2, [])
    else
      let gen := hmac_drbg_genBlocks hmac u1.2.K u1.2.V output_len
      let u2 := hmac_drbg_update hmac { u1.2 with V := gen.2 } additional_input
      if u2.1 ≠ 0 then (u2.1, u2.2, gen.1)
      else (0, { u2.2 with reseed_counter := u2.2.reseed_counter + 1 }, gen.1)

/-- A trivial concrete HMAC used to instantiate witnesses. -/
def hmac0 : Bytes → Bytes → Bytes := fun _ _ => List.replicate 64 0

/-- A concrete instantiated HMAC_DRBG state used to instantiate witnesses. -/
def hmacSt0 : HMAC_DRBG_STATE :=
  { K := List.replicate 64 0, V := List.replicate 64 1, reseed_counter := 1, flags := 1 }

/-! ## Trivium stream generator (src/rand/trivium.c, trivium.h)

The 288-bit register is nine 32-bit words `x1 .. x9`; words are `Nat` values
`< 2^32`, with `% 2^32` at the left-shift (the only overflowing operation).
`trivium.c` appears in two variants in the source; the `TRIVIUM_UPDATE_ROTATE`
macro differs between them only in how the feedback bits `t1`, `t2` are
folded into `x3`, `x6` (OR after a fixed AND mask versus folding the bit into
the AND mask). -/

structure TriviumState where
  x1 : Nat
  x2 : Nat
  x3 : Nat
  x4 : Nat
  x5 : Nat
  x6 : Nat
  x7 : Nat
  x8 : Nat
  x9 : Nat
deriving DecidableEq

/-- `t1 = ((x3 >> 1) ^ (x3 >> 28)) & 0x1` (s66 + s93). -/
def triviumT1 (s : TriviumState) : Nat := ((s.x3 >>> 1) ^^^ (s.x3 >>> 28)) &&& 1

/-- `t2 = ((x6 >> 1) ^ (x6 >> 16)) & 0x1` (s162 + s177). -/
def triviumT2 (s : TriviumState) : Nat := ((s.x6 >>> 1) ^^^ (s.x6 >>> 16)) &&& 1

/-- `t3 = ((x8 >> 18) ^ (x9 >> 31)) & 0x1` (s243 + s288). -/
def triviumT3 (s : TriviumState) : Nat := ((s.x8 >>> 18) ^^^ (s.x9 >>> 31)) &&& 1

/-- The keystream bit `z = t1 ^ t2 ^ t3`. -/
def triviumZ (s : TriviumState) : Nat := triviumT1 s ^^^ triviumT2 s ^^^ triviumT3 s

/-- `t1 = (t1 ^ ((x3 >> 26) & (x3 >> 27)) ^ (x6 >> 10)) & 0x1`. -/
def triviumFbT1 (s : TriviumState) : Nat :=
  (triviumT1 s ^^^ ((s.x3 >>> 26) &&& (s.x3 >>> 27)) ^^^ (s.x6 >>> 10)) &&& 1

/-- `t2 = (t2 ^ ((x6 >> 14) & (x6 >> 15)) ^ (x9 >> 7)) & 0x1`. -/
def triviumFbT2 (s : TriviumState) : Nat :=
  (triviumT2 s ^^^ ((s.x6 >>> 14) &&& (s.x6 >>> 15)) ^^^ (s.x9 >>> 7)) &&& 1

/-- `t3 = (t3 ^ ((x9 >> 29) & (x9 >> 30)) ^ (x3 >> 4)) & 0x1`. -/
def triviumFbT3 (s : TriviumState) : Nat :=
  (triviumT3 s ^^^ ((s.x9 >>> 29) &&& (s.x9 >>> 30)) ^^^ (s.x3 >>> 4)) &&& 1

/-- `TRIVIUM_UPDATE_ROTATE`, first variant (trivium.c lines 58-82): the
feedback bit is ORed in after a fixed AND mask, e.g.
`x6 = ((x6 << 1) & 0xfffdffff) | ((u32)t2 << 17) | (x5 >> 31)`.
Returns (z, next state); every right-hand side reads the pre-update state,
matching the C assignment order. -/
def triviumStepA (s : TriviumState) : Nat × TriviumState :=
  let t1 := triviumFbT1 s
  let t2 := triviumFbT2 s
  let t3 := triviumFbT3 s
  (triviumZ s,
   { x9 := ((s.x9 <<< 1) % 2 ^ 32) ||| (s.x8 >>> 31)
     x8 := ((s.x8 <<< 1) % 2 ^ 32) ||| (s.x7 >>> 31)
     x7 := ((s.x7 <<< 1) % 2 ^ 32) ||| (s.x6 >>> 31)
     x6 := (((s.x6 <<< 1) % 2 ^ 32) &&& 0xfffdffff) ||| (t2 <<< 17) ||| (s.x5 >>> 31)
     x5 := ((s.x5 <<< 1) % 2 ^ 32) ||| (s.x4 >>> 31)
     x4 := ((s.x4 <<< 1) % 2 ^ 32) ||| (s.x3 >>> 31)
     x3 := (((s.x3 <<< 1) % 2 ^ 32) &&& 0xdfffffff) ||| (t1 <<< 29) ||| (s.x2 >>> 31)
     x2 := ((s.x2 <<< 1) % 2 ^ 32) ||| (s.x1 >>> 31)
     x1 := ((s.x1 <<< 1) % 2 ^ 32) ||| t3 })

/-- `TRIVIUM_UPDATE_ROTATE`, second variant (trivium.c lines 278-296): the
feedback bit is folded into the AND mask, e.g.
`x6 = ((x6 << 1) & (((u32)t2 << 17) | 0xfffdffff)) | (x5 >> 31)`. -/
def triviumStepB (s : TriviumState) : Nat × TriviumState :=
  let t1 := triviumFbT1 s
  let t2 := triviumFbT2 s
  let t3 := triviumFbT3 s
  (triviumZ s,
   { x9 := ((s.x9 <<< 1) % 2 ^ 32) ||| (s.x8 >>> 31)
     x8 := ((s.x8 <<< 1) % 2 ^ 32) ||| (s.x7 >>> 31)
     x7 := ((s.x7 <<< 1) % 2 ^ 32) ||| (s.x6 >>> 31)
     x6 := (((s.x6 <<< 1) % 2 ^ 32) &&& ((t2 <<< 17) ||| 0xfffdffff)) ||| (s.x5 >>> 31)
     x5 := ((s.x5 <<< 1) % 2 ^ 32) ||| (s.x4 >>> 31)
     x4 := ((s.x4 <<< 1) % 2 ^ 32) ||| (s.x3 >>> 31)
     x3 := (((s.x3 <<< 1) % 2 ^ 32) &&& ((t1 <<< 29) ||| 0xdfffffff)) ||| (s.x2 >>> 31)
     x2 := ((s.x2 <<< 1) % 2 ^ 32) ||| (s.x1 >>> 31)
     x1 := ((s.x1 <<< 1) % 2 ^ 32) ||| t3 })

/-- `TRIVIUM_RESEED_PERIOD` (trivium.h line 44): `1ULL << 20`. -/
def TRIVIUM_RESEED_PERIOD : Nat := 2 ^ 20

/-- Generator state: the register plus the reseed counter
`static s32 ctr = -1`. -/
structure TriviumGenState where
  regs : TriviumState
  ctr : Int
deriving DecidableEq

/-- `n` iterations of `rand = (rand << 1) | z` with the first-variant update
macro, as in the body of `TriviumRand8/16/32/64`. -/
def triviumRounds : Nat → TriviumState → Nat → Nat × TriviumState
  | 0, s, acc => (acc, s)
  | n + 1, s, acc =>
    let st := triviumStepA s
    triviumRounds n st.2 ((acc <<< 1) ||| st.1)

/-- `TriviumRand8` (trivium.c lines 132-146).  `trivium_set_seed` fetches a
fresh IV from the Pool and reinitializes the register with the constant key;
the resulting register contents are abstracted as the parameter `seedRegs`.
On entry the generator reseeds when `ctr >= TRIVIUM_RESEED_PERIOD || ctr == -1`
(setting `ctr = 0`), then emits 8 keystream bits and performs `ctr += 8`. -/
def TriviumRand8 (seedRegs : TriviumState) (g : TriviumGenState) :
    Nat × TriviumGenState :=
  let g1 := if g.ctr ≥ (TRIVIUM_RESEED_PERIOD : Int) ∨ g.ctr = -1
    then ({ regs := seedRegs, ctr := 0 } : TriviumGenState) else g
  let r := triviumRounds 8 g1.regs 0
  (r.1, { regs := r.2, ctr := g1.ctr + 8 })

/-- A sequence of `n` consecutive `TriviumRand8` calls (each producing one
output byte), discarding the outputs. -/
def triviumRand8Iter (seedRegs : TriviumState) : Nat → TriviumGenState → TriviumGenState
  | 0, g => g
  | n + 1, g => triviumRand8Iter seedRegs n (TriviumRand8 seedRegs g).2

/-- The all-zero register, used to instantiate witnesses. -/
def trivium0 : TriviumState :=
  { x1 := 0, x2 := 0, x3 := 0, x4 := 0, x5 := 0, x6 := 0, x7 := 0, x8 := 0, x9 := 0 }

/-! ## The randomness pool (rngw32.c, in src/unnamed/part_007, and rngw32.h)

`RNG_POOL_SIZE = 384`, `RNG_POOL_MIX_INTERVAL = 32`,
`SHA512_DIGEST_LENGTH = 64`.  SHA-512 is abstracted as `h : Bytes → Bytes`.
The pool is the byte list plus the two cursors; lifecycle flags live in
`RngState`. -/

def RNG_POOL_SIZE : Nat := 384

def RNG_POOL_MIX_INTERVAL : Nat := 32

/-- One block step of `RandPoolMix`: `pool[off + j] ^= H[j]` for
`j = 0 .. 63` (rngw32.c lines 1272-1274), rendered as slice surgery. -/
def xorChunk (pool H : Bytes) (off : Nat) : Bytes :=
  pool.take off ++ List.zipWith Nat.xor ((pool.drop off).take 64) (H.take 64)
    ++ pool.drop (off + 64)

/-- `RandPoolMix` (rngw32.c lines 1261-1279): for
`i = 0; i < RNG_POOL_SIZE; i += SHA512_DIGEST_LENGTH`, hash the whole current
pool and XOR the digest into `pool[i .. i+64)`. -/
def RandPoolMix (h : Bytes → Bytes) (pool : Bytes) : Bytes :=
  (List.range' 0 (RNG_POOL_SIZE / 64) 64).foldl (fun p i => xorChunk p (h p) i) pool

/-- Modelled from the spec (§4.1 mix / C3): `n = POOL_SIZE / D`; for
`i = 0 .. n-1`, compute `H = Hash(pool)` and replace `pool[i*D .. i*D+D)`
with `pool[i*D .. i*D+D) XOR H`. -/
def spec_pool_mix (h : Bytes → Bytes) (pool : Bytes) : Bytes :=
  (List.range (RNG_POOL_SIZE / 64)).foldl (fun p i => xorChunk p (h p) (i * 64)) pool

/-- The pool byte array together with the write cursor
(`pRandPool`, `nCurrentPoolWritePos`). -/
structure PoolCore where
  pool : Bytes
  w : Nat
deriving DecidableEq

/-- `AddByte(x)` (rngw32.c lines 239-246): mix when the write cursor is a
multiple of `RNG_POOL_MIX_INTERVAL`, wrap the cursor at `RNG_POOL_SIZE`, then
`pRandPool[nCurrentPoolWritePos++] ^= (uint8_t)x`. -/
def AddByte (h : Bytes → Bytes) (s : PoolCore) (x : Nat) : PoolCore :=
  let s1 := if s.w % RNG_POOL_MIX_INTERVAL = 0
    then { s with pool := RandPoolMix h s.pool } else s
  let s2 := if s1.w = RNG_POOL_SIZE then { s1 with w := 0 } else s1
  { pool := s2.pool.set s2.w ((s2.pool.getD s2.w 0) ^^^ (x % 256)), w := s2.w + 1 }

/-- `AddBuf(buf, size)` (rngw32.c lines 283-287): `AddByte` on each byte. -/
def AddBuf (h : Bytes → Bytes) (s : PoolCore) (buf : Bytes) : PoolCore :=
  buf.foldl (AddByte h) s

/-- Straight-line byte writes `p[w + k] ^= L[k]` with no intervening mix and
no cursor wrap; used to characterize `AddBuf` runs that trigger neither. -/
def writeBytes : Bytes → Nat → Bytes → Bytes
  | p, _, [] => p
  | p, w, x :: L => writeBytes (p.set w ((p.getD w 0) ^^^ (x % 256))) (w + 1) L

/-- One extraction pass of `RandFetchBytes` (rngw32.c lines 1329-1335 and
1347-1353): read `len` bytes at the advancing read cursor, wrapping it at
`RNG_POOL_SIZE` before each read.  Returns the bytes read and the final
cursor. -/
def readPass (pool : Bytes) : Nat → Nat → Bytes × Nat
  | r, 0 => ([], r)
  | r, n + 1 =>
    let r' := if r = RNG_POOL_SIZE then 0 else r
    let rest := readPass pool (r' + 1) n
    (pool.getD r' 0 :: rest.1, rest.2)

/-- The pool inversion of `RandFetchBytes` (lines 1338-1340): every 32-bit
word is XORed with `0xffffffff`, which flips every bit of every byte
(independently of endianness), i.e. each byte is XORed with `0xff`. -/
def invertPool (pool : Bytes) : Bytes := pool.map (fun b => b ^^^ 0xff)

/-- The observable behaviour of one `RandFastPoll` invocation
(rngw32.c lines 678-846): if the CNG random provider succeeds (`cngOk`), a
sequence of probe bytes (`adds`) is added via `AddBuf`/`Add*` and the poll
ends with `RandPoolMix`; if it fails, `RandFastPoll` returns `FALSE` before
any write.  The probe bytes are nondeterministic and appear as data. -/
structure FastPoll where
  adds : Bytes
  cngOk : Bool
deriving DecidableEq

/-- The pool state after a successful fast poll. -/
def fastPollOk (h : Bytes → Bytes) (f : FastPoll) (c : PoolCore) : PoolCore :=
  let c1 := AddBuf h c f.adds
  { pool := RandPoolMix h c1.pool, w := c1.w }

/-- `RandFastPoll` as an optional state transformer (`none` = `FALSE`). -/
def RandFastPoll (h : Bytes → Bytes) (f : FastPoll) (c : PoolCore) : Option PoolCore :=
  if f.cngOk then some (fastPollOk h f c) else none

/-- The global RNG state: pool core, read cursor (`nCurrentPoolReadPos`), and
the flags `bDidRandPoolInit`, `bDidSlowPoll`, `bUserEventsEnabled`. -/
structure RngState where
  core : PoolCore
  r : Nat
  didInit : Bool
  didSlowPoll : Bool
  userEventsEnabled : Bool
deriving DecidableEq

/-- Outcome of `RandFetchBytes`: `fatal` models
`Throw(ERR_RAND_INIT, FATAL, ...)`, which aborts the process
(`handle_exception` with `fatal` set calls `kill()`); `fail` is a `FALSE`
return with the state at that point; `ok` is a `TRUE` return together with
the bytes written to the caller's buffer. -/
inductive FetchResult where
  | fatal : FetchResult
  | fail (st : RngState) : FetchResult
  | ok (st : RngState) (out : Bytes) : FetchResult
deriving DecidableEq

/-- Whether a `RandFetchBytes` outcome is a `FALSE` return to the caller. -/
def isFalseReturn : FetchResult → Bool
  | .fail _ => true
  | _ => false

/-- The extraction core of `RandFetchBytes` (rngw32.c lines 1324-1358),
entered after the slow-poll and user-event preliminaries: fast poll (ends in
a mix), first pass `data[i] = pool[read_cursor++]`, pool inversion, second
fast poll, second pass `data[i] ^= pool[read_cursor++]`, final `RandPoolMix`. -/
def fetchAfterPolls (h : Bytes → Bytes) (fp1 fp2 : FastPoll) (s : RngState)
    (len : Nat) : FetchResult :=
  match RandFastPoll h fp1 s.core with
  | none => .fail s
  | some c1 =>
    let pr1 := readPass c1.pool s.r len
    let inv : PoolCore := { pool := invertPool c1.pool, w := c1.w }
    match RandFastPoll h fp2 inv with
    | none => .fail { s with core := inv, r := pr1.2 }
    | some c2 =>
      let pr2 := readPass c2.pool pr1.2 len
      .ok { s with core := { pool := RandPoolMix h c2.pool, w := c2.w }, r := pr2.2 }
        (List.zipWith Nat.xor pr1.1 pr2.1)

/-- The user-event step of `RandFetchBytes` (lines 1321-1322):
`if (bUserEventsEnabled && !AddUserEvents()) goto cleanup`.  `AddUserEvents`
is abstracted as a state transformer with a success flag. -/
def fetchUserEvents (h : Bytes → Bytes) (userEv : PoolCore → PoolCore × Bool)
    (fp1 fp2 : FastPoll) (s : RngState) (len : Nat) : FetchResult :=
  if s.userEventsEnabled then
    let r := userEv s.core
    if r.2 then fetchAfterPolls h fp1 fp2 { s with core := r.1 } len
    else .fail { s with core := r.1 }
  else fetchAfterPolls h fp1 fp2 s len

/-- The slow-poll step of `RandFetchBytes` (lines 1314-1319): when
`!bDidSlowPoll || forceSlowPoll`, run `RandSlowPoll` (abstracted as a state
transformer with a success flag; it never touches `bDidSlowPoll` itself); on
failure go to cleanup with `FALSE`, on success set `bDidSlowPoll = TRUE`. -/
def fetchSlow (h : Bytes → Bytes) (slowPoll userEv : PoolCore → PoolCore × Bool)
    (fp1 fp2 : FastPoll) (s : RngState) (len : Nat) (forceSlowPoll : Bool) :
    FetchResult :=
  if s.didSlowPoll = false ∨ forceSlowPoll then
    let r := slowPoll s.core
    if r.2 then
      fetchUserEvents h userEv fp1 fp2 { s with core := r.1, didSlowPoll := true } len
    else .fail { s with core := r.1 }
  else fetchUserEvents h userEv fp1 fp2 s len

/-- `RandFetchBytes(data, len, forceSlowPoll)` (rngw32.c lines 1286-1365).
The `data == NULL` and `len < 0` guards have no counterpart for a `Nat`
length and an always-present output buffer; then, in source order:
`len > RNG_POOL_SIZE` returns `FALSE`, `!bDidRandPoolInit` throws a fatal
(process-terminating) error, and the polls and extraction follow under the
critical section. -/
def RandFetchBytes (h : Bytes → Bytes) (slowPoll userEv : PoolCore → PoolCore × Bool)
    (fp1 fp2 : FastPoll) (s : RngState) (len : Nat) (forceSlowPoll : Bool) :
    FetchResult :=
  if len > RNG_POOL_SIZE then .fail s
  else if s.didInit = false then .fatal
  else fetchSlow h slowPoll userEv fp1 fp2 s len forceSlowPoll

/-- Modelled from the spec (C1's reading of §4.1 fetch): the delivered byte
`i` is the caller's prior buffer content XORed with the two successive pool
snapshots at the advancing read cursor. -/
def spec_fetch_byte (data p1 p2 : Bytes) (r len i : Nat) : Nat :=
  data.getD i 0 ^^^ p1.getD ((r + i) % RNG_POOL_SIZE) 0
    ^^^ p2.getD ((r + len + i) % RNG_POOL_SIZE) 0

/-- The first pool snapshot read by the extraction core: the pool after the
first fast poll. -/
def fetchSnap1 (h : Bytes → Bytes) (fp1 : FastPoll) (c : PoolCore) : PoolCore :=
  fastPollOk h fp1 c

/-- The second pool snapshot read by the extraction core: the pool after the
inversion and the second fast poll. -/
def fetchSnap2 (h : Bytes → Bytes) (fp1 fp2 : FastPoll) (c : PoolCore) : PoolCore :=
  fastPollOk h fp2 ⟨invertPool (fetchSnap1 h fp1 c).pool, (fetchSnap1 h fp1 c).w⟩

/-- The bytes delivered to the caller by a successful fetch (empty
otherwise). -/
def fetchOut : FetchResult → Bytes
  | .ok _ out => out
  | _ => []

/-- A trivial concrete hash used to instantiate witnesses and
counterexamples. -/
def h0 : Bytes → Bytes := fun _ => List.replicate 64 0

/-- A slow poll / user-event transformer that adds nothing and succeeds. -/
def pollId : PoolCore → PoolCore × Bool := fun c => (c, true)

/-- A slow poll that adds nothing and fails. -/
def pollFail : PoolCore → PoolCore × Bool := fun c => (c, false)

/-- A fast poll with no probe bytes whose CNG call succeeds. -/
def fp0 : FastPoll := { adds := [], cngOk := true }

/-- The all-zero 384-byte pool. -/
def pool0 : Bytes := List.replicate 384 0

end Xrand

namespace Xrand

/-! ## Helper lemmas -/

theorem byteOf_lt (x i : Nat) : byteOf x i < 256 :=
  Nat.mod_lt _ (by norm_num)

theorem byteOf_zero (x : Nat) : byteOf x 0 = x % 256 := by
  simp [byteOf]

theorem byteOf_one (x : Nat) : byteOf x 1 = x / 256 % 256 := by
  simp [byteOf]

theorem byteOf_two (x : Nat) : byteOf x 2 = x / 65536 % 256 := by
  norm_num [byteOf]

theorem byteOf_three (x : Nat) : byteOf x 3 = x / 16777216 % 256 := by
  norm_num [byteOf]

/-- `bswap32` of the little-endian value of four bytes is their big-endian
value. -/
theorem bswap32_leVal (a b c d : Nat) (ha : a < 256) (hb : b < 256)
    (hc : c < 256) (hd : d < 256) :
    bswap32 (leVal [a, b, c, d]) = beVal [a, b, c, d] := by
  have hle : leVal [a, b, c, d] = a + 256 * b + 65536 * c + 16777216 * d := by
    simp [leVal]; ring
  have hbe : beVal [a, b, c, d] = 16777216 * a + 65536 * b + 256 * c + d := by
    simp [beVal]; ring
  rw [hle, hbe]
  simp only [bswap32, byteOf_zero, byteOf_one, byteOf_two, byteOf_three]
  have h1 : (a + 256 * b + 65536 * c + 16777216 * d) % 256 = a := by omega
  have h2 : (a + 256 * b + 65536 * c + 16777216 * d) / 256 = b + 256 * c + 65536 * d := by
    omega
  have h3 : (a + 256 * b + 65536 * c + 16777216 * d) / 65536 = c + 256 * d := by omega
  have h4 : (a + 256 * b + 65536 * c + 16777216 * d) / 16777216 = d := by omega
  rw [h1, h2, h3, h4]
  have h5 : (b + 256 * c + 65536 * d) % 256 = b := by omega
  have h6 : (c + 256 * d) % 256 = c := by omega
  have h7 : d % 256 = d := by omega
  rw [h5, h6, h7]
  ring

/-- Re-serializing a byte-swapped word in little-endian order yields the
big-endian byte string of the word. -/
theorem leBytes32_bswap32 (x : Nat) :
    leBytes32 (bswap32 x) = beBytes32 x := by
  simp only [leBytes32, beBytes32, bswap32,
    byteOf_zero, byteOf_one, byteOf_two, byteOf_three]
  have h0 : x % 256 < 256 := Nat.mod_lt _ (by norm_num)
  have h1 : x / 256 % 256 < 256 := Nat.mod_lt _ (by norm_num)
  have h2 : x / 65536 % 256 < 256 := Nat.mod_lt _ (by norm_num)
  have h3 : x / 16777216 % 256 < 256 := Nat.mod_lt _ (by norm_num)
  generalize hb0 : x % 256 = b0 at *
  generalize hb1 : x / 256 % 256 = b1 at *
  generalize hb2 : x / 65536 % 256 = b2 at *
  generalize hb3 : x / 16777216 % 256 = b3 at *
  have e : b0 * 2 ^ 24 + b1 * 2 ^ 16 + b2 * 2 ^ 8 + b3
      = b3 + 256 * b2 + 65536 * b1 + 16777216 * b0 := by ring
  rw [e]
  have h4 : (b3 + 256 * b2 + 65536 * b1 + 16777216 * b0) % 256 = b3 := by omega
  have h5 : (b3 + 256 * b2 + 65536 * b1 + 16777216 * b0) / 256
      = b2 + 256 * b1 + 65536 * b0 := by omega
  have h6 : (b3 + 256 * b2 + 65536 * b1 + 16777216 * b0) / 65536
      = b1 + 256 * b0 := by omega
  have h7 : (b3 + 256 * b2 + 65536 * b1 + 16777216 * b0) / 16777216 = b0 := by omega
  rw [h4, h5, h6, h7]
  have h8 : (b2 + 256 * b1 + 65536 * b0) % 256 = b2 := by omega
  have h9 : (b1 + 256 * b0) % 256 = b1 := by omega
  have h10 : b0 % 256 = b0 := by omega
  rw [h8, h9, h10]

/-- Big-endian value of the big-endian byte string of `x`, for `x < 2^32`. -/
theorem beVal_beBytes32 (x : Nat) (hx : x < 2 ^ 32) :
    beVal (beBytes32 x) = x := by
  simp only [beVal, beBytes32, List.foldl,
    byteOf_zero, byteOf_one, byteOf_two, byteOf_three]
  omega

/-! ## Claim C3: pool mixing matches the reference algorithm -/

/-- C3.  The pool mixing operation equals the spec's reference algorithm:
with `n = POOL_SIZE / D` (`D = 64`), for `i = 0 .. n-1` it computes
`H = Hash(pool)` and replaces `pool[i*D .. i*D+D)` with its XOR with `H`,
each later hash seeing the already-partially-updated pool; and `mix()` is a
deterministic pure function of the pool bytes, so two applications to
identical pool contents yield identical results. -/
theorem randPoolMix_spec_and_deterministic (h : Bytes → Bytes) (pool p q : Bytes)
    (hpq : p = q) :
    RandPoolMix h pool = spec_pool_mix h pool ∧ RandPoolMix h p = RandPoolMix h q := by
  constructor
  · unfold RandPoolMix spec_pool_mix RNG_POOL_SIZE
    have e : List.range' 0 (384 / 64) 64 = (List.range (384 / 64)).map (· * 64) := by
      decide
    rw [e, List.foldl_map]
  · exact congrArg _ hpq

/-- Witness for C3 at a concrete pool. -/
theorem randPoolMix_spec_and_deterministic_witness :
    RandPoolMix h0 pool0 = spec_pool_mix h0 pool0 ∧
      RandPoolMix h0 [1, 2, 3] = RandPoolMix h0 [1, 2, 3] :=
  randPoolMix_spec_and_deterministic h0 pool0 [1, 2, 3] [1, 2, 3] rfl

/-! ## Claim C4: CTR_DRBG generate argument failures -/

/-- C4.  `ctr_drbg_generate` fails when `out_len > 2^16`, or the additional
input is longer than 48 bytes, or `reseed_counter > 2^48`; on each of these
failures the state is returned unchanged and no output is produced. -/
theorem ctr_drbg_generate_arg_failures (enc : Bytes → Bytes → Bytes)
    (state : CTR_DRBG_STATE) (out_len : Nat) (additional_input : Bytes)
    (hcond : out_len > 2 ^ 16 ∨ additional_input.length > 48 ∨
      state.counter > 2 ^ 48) :
    ctr_drbg_generate enc state out_len additional_input
      = (.FAILURE, state, []) := by
  unfold ctr_drbg_generate
  rcases hcond with h | h | h
  · rw [if_pos h]
  · by_cases h1 : out_len > 2 ^ 16
    · rw [if_pos h1]
    · rw [if_neg h1, if_pos h]
  · by_cases h1 : out_len > 2 ^ 16
    · rw [if_pos h1]
    · by_cases h2 : additional_input.length > 48
      · rw [if_neg h1, if_pos h2]
      · rw [if_neg h1, if_neg h2, if_pos h]

/-- Witness for C4: an oversized request against a concrete state. -/
theorem ctr_drbg_generate_arg_failures_witness :
    ctr_drbg_generate enc0 ctrSt0 (2 ^ 16 + 1) [] = (.FAILURE, ctrSt0, []) :=
  ctr_drbg_generate_arg_failures enc0 ctrSt0 (2 ^ 16 + 1) []
    (Or.inl (by norm_num))

/-! ## Claim C7: HMAC_DRBG oversized generate leaves the state unchanged -/

/-- C7.  For an instantiated HMAC_DRBG state, a generate call requesting
`MAX_OUT_PER_CALL + 1 = 2^16 + 1` bytes returns `ERR_HMAC_DRBG_BAD_ARGS`
(the `INVALID_ARGUMENT` code) with the state unchanged, so any subsequent
generate from the returned state behaves exactly as if the failing call had
never occurred. -/
theorem hmac_drbg_generate_too_long (hmac : Bytes → Bytes → Bytes)
    (state : HMAC_DRBG_STATE) (additional_input : Bytes) (n : Nat) (a2 : Bytes)
    (hinit : state.flags % 2 = 1) :
    hmac_drbg_generate hmac state (2 ^ 16 + 1) additional_input = (-3, state, []) ∧
    hmac_drbg_generate hmac
        (hmac_drbg_generate hmac state (2 ^ 16 + 1) additional_input).2.1 n a2
      = hmac_drbg_generate hmac state n a2 := by
  have h1 : hmac_drbg_generate hmac state (2 ^ 16 + 1) additional_input
      = (-3, state, []) := by
    unfold hmac_drbg_generate
    rw [if_neg (by omega), if_pos (by omega)]
  exact ⟨h1, by rw [h1]⟩

/-- Witness for C7 against a concrete instantiated state. -/
theorem hmac_drbg_generate_too_long_witness :
    hmac_drbg_generate hmac0 hmacSt0 (2 ^ 16 + 1) [] = (-3, hmacSt0, []) ∧
    hmac_drbg_generate hmac0
        (hmac_drbg_generate hmac0 hmacSt0 (2 ^ 16 + 1) []).2.1 5 []
      = hmac_drbg_generate hmac0 hmacSt0 5 [] :=
  hmac_drbg_generate_too_long hmac0 hmacSt0 [] 5 [] (by decide)

/-! ## Claim C10: the two TRIVIUM_UPDATE_ROTATE variants -/

/-- Counterexample for C10 as stated: at the register state with `x9 = 0x80`
and all other words zero, the two macro variants produce different next
states (`x6` gets `0x20000` in the first variant and `0` in the second). -/
theorem trivium_rotate_variants_differ :
    triviumStepA ⟨0, 0, 0, 0, 0, 0, 0, 0, 0x80⟩
      ≠ triviumStepB ⟨0, 0, 0, 0, 0, 0, 0, 0, 0x80⟩ := by
  decide

/-- C10 (amended).  The two variants of `TRIVIUM_UPDATE_ROTATE` always
produce the same keystream bit `z`, and they produce the same next register
state whenever the two folded feedback bits `t1` and `t2` are zero; when a
feedback bit is 1 the second variant keeps the shifted-in register bit
(AND) where the first forces a 1 (OR), so the next states differ in
general. -/
theorem trivium_rotate_variants (s : TriviumState) :
    (triviumStepA s).1 = (triviumStepB s).1 ∧
    (triviumFbT1 s = 0 → triviumFbT2 s = 0 → triviumStepA s = triviumStepB s) := by
  refine ⟨rfl, fun h1 h2 => ?_⟩
  simp only [triviumStepA, triviumStepB, h1, h2, Nat.zero_shiftLeft,
    Nat.or_zero, Nat.zero_or]

/-- Witness for C10 at the all-zero register (both feedback bits vanish). -/
theorem trivium_rotate_variants_witness :
    (triviumStepA trivium0).1 = (triviumStepB trivium0).1 ∧
      triviumStepA trivium0 = triviumStepB trivium0 :=
  ⟨(trivium_rotate_variants trivium0).1,
   (trivium_rotate_variants trivium0).2 (by decide) (by decide)⟩

/-! ## Claim C8: StreamGen reseed cadence -/

/-- Counter evolution of consecutive `TriviumRand8` calls: starting from
`ctr = 8*m`, as long as the threshold `2^20` is not reached the reseed branch
never fires and `k` calls leave `ctr = 8*(m + k)`. -/
theorem triviumRand8Iter_ctr (seedRegs : TriviumState) :
    ∀ (k m : Nat) (g : TriviumGenState), g.ctr = (8 * m : Int) →
      8 * (m + k) ≤ 2 ^ 20 →
      (triviumRand8Iter seedRegs k g).ctr = (8 * (m + k) : Int) := by
  intro k
  induction k with
  | zero => intro m g hg _; simpa using hg
  | succ k IH =>
    intro m g hg hle
    have hno : ¬(g.ctr ≥ (TRIVIUM_RESEED_PERIOD : Int) ∨ g.ctr = -1) := by
      rw [hg]
      unfold TRIVIUM_RESEED_PERIOD
      push_cast
      omega
    have hstep : (TriviumRand8 seedRegs g).2.ctr = (8 * (m + 1) : Int) := by
      simp only [TriviumRand8, if_neg hno]
      rw [hg]
      ring
    show (triviumRand8Iter seedRegs k (TriviumRand8 seedRegs g).2).ctr = _
    rw [IH (m + 1) _ hstep (by omega)]
    congr 1
    omega

/-- C8.  The reseed counter `ctr` advances by 8 per produced byte
(`TriviumRand8` emits one byte but performs `ctr += 8`), so from a fresh seed
(`ctr = 0`) the counter reaches `TRIVIUM_RESEED_PERIOD = 2^20` after exactly
`2^17` output bytes, and the very next call re-seeds (resets `ctr` and
reinitializes the register from `trivium_set_seed`): the generator re-seeds
after `2^17` output bytes, although `2^17 < 2^20`. -/
theorem trivium_reseed_counts_bits (seedRegs regs0 : TriviumState)
    (g' : TriviumGenState) (hg' : g'.ctr = ((2 : Int) ^ 20)) :
    (triviumRand8Iter seedRegs (2 ^ 17) { regs := regs0, ctr := 0 }).ctr
        = ((2 : Int) ^ 20) ∧
    (TriviumRand8 seedRegs g').2
        = { regs := (triviumRounds 8 seedRegs 0).2, ctr := 8 } ∧
    (2 ^ 17 : Nat) < 2 ^ 20 := by
  refine ⟨?_, ?_, by norm_num⟩
  · have := triviumRand8Iter_ctr seedRegs (2 ^ 17) 0
      { regs := regs0, ctr := 0 } (by norm_num) (by norm_num)
    rw [this]
    norm_num
  · have hcond : g'.ctr ≥ (TRIVIUM_RESEED_PERIOD : Int) ∨ g'.ctr = -1 :=
      Or.inl (by rw [hg']; norm_num [TRIVIUM_RESEED_PERIOD])
    simp only [TriviumRand8, if_pos hcond]
    norm_num

/-! ## Claim C5: CTR_DRBG update -/

theorem list_length_four (l : List Nat) (h : l.length = 4) :
    ∃ a b c d, l = [a, b, c, d] := by
  rcases l with _ | ⟨a, _ | ⟨b, _ | ⟨c, _ | ⟨d, rest⟩⟩⟩⟩ <;> simp_all

/-- The byte-swap increment of `CTR_DRBG_INCR32` with `n = 1` coincides with
the spec-level big-endian increment of the last four bytes of `V`. -/
theorem incr32_eq_spec (V : Bytes) (h16 : V.length = 16)
    (hb : ∀ b ∈ V, b < 256) : CTR_DRBG_INCR32 V 1 = spec_incr32 V := by
  have h4 : (V.drop 12).length = 4 := by simp [h16]
  obtain ⟨a, b, c, d, hd⟩ := list_length_four _ h4
  have ha : a < 256 := hb a (List.drop_subset 12 V (by rw [hd]; simp))
  have hbb : b < 256 := hb b (List.drop_subset 12 V (by rw [hd]; simp))
  have hcc : c < 256 := hb c (List.drop_subset 12 V (by rw [hd]; simp))
  have hdd : d < 256 := hb d (List.drop_subset 12 V (by rw [hd]; simp))
  unfold CTR_DRBG_INCR32 spec_incr32
  rw [hd, bswap32_leVal a b c d ha hbb hcc hdd, leBytes32_bswap32]

theorem spec_incr32_length (V : Bytes) (h : 12 ≤ V.length) :
    (spec_incr32 V).length = 16 := by
  simp [spec_incr32, beBytes32]
  omega

theorem spec_incr32_bytes (V : Bytes) (hb : ∀ b ∈ V, b < 256) :
    ∀ b ∈ spec_incr32 V, b < 256 := by
  intro x hx
  rcases List.mem_append.mp hx with h | h
  · exact hb x (List.take_subset 12 V h)
  · simp only [beBytes32, List.mem_cons, List.not_mem_nil, or_false] at h
    rcases h with rfl | rfl | rfl | rfl <;> exact byteOf_lt _ _

theorem incr32_take12 (V : Bytes) (n : Nat) (h : 12 ≤ V.length) :
    (CTR_DRBG_INCR32 V n).take 12 = V.take 12 := by
  have hlen : (V.take 12).length = 12 := by simp; omega
  unfold CTR_DRBG_INCR32
  calc (V.take 12 ++ leBytes32 (bswap32 ((bswap32 (leVal (V.drop 12)) + n) % 2 ^ 32))).take 12
      = (V.take 12 ++ leBytes32 (bswap32 ((bswap32 (leVal (V.drop 12)) + n) % 2 ^ 32))).take
          (V.take 12).length := by rw [hlen]
    _ = V.take 12 := List.take_left _ _

theorem incr32_drop12_beVal (V : Bytes) (n : Nat) (h16 : V.length = 16)
    (hb : ∀ b ∈ V, b < 256) :
    beVal ((CTR_DRBG_INCR32 V n).drop 12) = (beVal (V.drop 12) + n) % 2 ^ 32 := by
  have h4 : (V.drop 12).length = 4 := by simp [h16]
  obtain ⟨a, b, c, d, hd⟩ := list_length_four _ h4
  have ha : a < 256 := hb a (List.drop_subset 12 V (by rw [hd]; simp))
  have hbb : b < 256 := hb b (List.drop_subset 12 V (by rw [hd]; simp))
  have hcc : c < 256 := hb c (List.drop_subset 12 V (by rw [hd]; simp))
  have hdd : d < 256 := hb d (List.drop_subset 12 V (by rw [hd]; simp))
  have hlen : (V.take 12).length = 12 := by simp; omega
  unfold CTR_DRBG_INCR32
  have hdl : (V.take 12 ++ leBytes32 (bswap32 ((bswap32 (leVal (V.drop 12)) + n) % 2 ^ 32))).drop 12
      = leBytes32 (bswap32 ((bswap32 (leVal (V.drop 12)) + n) % 2 ^ 32)) := by
    calc (V.take 12 ++ leBytes32 (bswap32 ((bswap32 (leVal (V.drop 12)) + n) % 2 ^ 32))).drop 12
        = (V.take 12 ++ leBytes32 (bswap32 ((bswap32 (leVal (V.drop 12)) + n) % 2 ^ 32))).drop
            (V.take 12).length := by rw [hlen]
      _ = _ := List.drop_left _ _
  rw [hdl, hd, bswap32_leVal a b c d ha hbb hcc hdd, leBytes32_bswap32,
    beVal_beBytes32 _ (Nat.mod_lt _ (by norm_num))]

/-- C5.  `ctr_drbg_update` with provided data of length at most 48 produces
exactly the three-block increment-then-encrypt sequence of the spec, XORs the
data into the prefix of `temp`, and reassigns `K = temp[0..32)`,
`V = temp[32..48)`; and the counter increment touches only the last 32 bits
of `V`, read big-endian, with wraparound mod `2^32` (the upper 96 bits are
unchanged). -/
theorem ctr_drbg_update_spec (enc : Bytes → Bytes → Bytes)
    (state : CTR_DRBG_STATE) (data : Bytes) (hlen : data.length ≤ 48)
    (hV : state.V.length = 16) (hVb : ∀ b ∈ state.V, b < 256) :
    ctr_drbg_update enc state data = some (spec_ctr_drbg_update enc state data) ∧
    (CTR_DRBG_INCR32 state.V 1).take 12 = state.V.take 12 ∧
    beVal ((CTR_DRBG_INCR32 state.V 1).drop 12)
      = (beVal (state.V.drop 12) + 1) % 2 ^ 32 := by
  have hV1len : (spec_incr32 state.V).length = 16 := spec_incr32_length _ (by omega)
  have hV1b : ∀ b ∈ spec_incr32 state.V, b < 256 := spec_incr32_bytes _ hVb
  have hV2len : (spec_incr32 (spec_incr32 state.V)).length = 16 :=
    spec_incr32_length _ (by omega)
  have hV2b : ∀ b ∈ spec_incr32 (spec_incr32 state.V), b < 256 :=
    spec_incr32_bytes _ hV1b
  refine ⟨?_, incr32_take12 state.V 1 (by omega),
    incr32_drop12_beVal state.V 1 hV hVb⟩
  simp only [ctr_drbg_update, spec_ctr_drbg_update]
  rw [if_neg (by omega), incr32_eq_spec state.V hV hVb,
    incr32_eq_spec (spec_incr32 state.V) hV1len hV1b,
    incr32_eq_spec (spec_incr32 (spec_incr32 state.V)) hV2len hV2b]

/-- Witness for C5 at a concrete state and data. -/
theorem ctr_drbg_update_spec_witness :
    ctr_drbg_update enc0 ctrSt0 [1, 2, 3]
        = some (spec_ctr_drbg_update enc0 ctrSt0 [1, 2, 3]) ∧
    (CTR_DRBG_INCR32 ctrSt0.V 1).take 12 = ctrSt0.V.take 12 ∧
    beVal ((CTR_DRBG_INCR32 ctrSt0.V 1).drop 12)
      = (beVal (ctrSt0.V.drop 12) + 1) % 2 ^ 32 :=
  ctr_drbg_update_spec enc0 ctrSt0 [1, 2, 3] (by norm_num) (by decide) (by decide)

/-! ## Claim C6: the Hash_DRBG derivation function -/

/-- The block loop of `hash_drbg_df` emits, for counter values
`c, c+1, ...`, the hashes `sha(counter || lenStr || input)`, truncated to the
requested length, as long as the counters stay below 256. -/
theorem hash_drbg_df_blocks_eq (sha : Bytes → Bytes)
    (hsha : ∀ x, (sha x).length = 64) (lenStr input : Bytes) :
    ∀ r c, 1 ≤ c → c + (r + 63) / 64 ≤ 256 →
      hash_drbg_df_blocks sha lenStr input c r =
        (((List.range ((r + 63) / 64)).map
          fun j => sha ((c + j) :: (lenStr ++ input))).flatten).take r := by
  intro r
  induction r using Nat.strong_induction_on with
  | _ r IH =>
    intro c hc hbound
    rw [hash_drbg_df_blocks]
    by_cases hr : r < 64
    · rw [if_pos hr]
      rcases Nat.eq_zero_or_pos r with h0 | hpos
      · subst h0; simp
      · have hdiv : (r + 63) / 64 = 1 := by omega
        have hc255 : c % 256 = c := Nat.mod_eq_of_lt (by omega)
        have hr1 : List.range 1 = [0] := rfl
        rw [hdiv, hc255]
        simp only [hr1, List.map_cons, List.map_nil, List.flatten_cons,
          List.flatten_nil, List.append_nil, Nat.add_zero]
    · rw [if_neg hr]
      have hge : 64 ≤ r := by omega
      have hK : (r + 63) / 64 = ((r - 64) + 63) / 64 + 1 := by omega
      have hdivpos : 1 ≤ (r + 63) / 64 := by omega
      have hc255 : c % 256 = c := Nat.mod_eq_of_lt (by omega)
      rw [IH (r - 64) (by omega) (c + 1) (by omega) (by omega), hK, hc255,
        List.range_succ_eq_map]
      simp only [List.map_cons, List.flatten_cons, List.map_map, Nat.add_zero]
      rw [List.take_append_eq_append_take]
      have hlen : (sha (c :: (lenStr ++ input))).length = 64 := hsha _
      have hmap : List.map ((fun j => sha ((c + j) :: (lenStr ++ input))) ∘ Nat.succ)
          (List.range ((r - 64 + 63) / 64))
          = List.map (fun j => sha ((c + 1 + j) :: (lenStr ++ input)))
            (List.range ((r - 64 + 63) / 64)) := by
        apply List.map_congr_left
        intro j _
        simp only [Function.comp_apply]
        congr 2
        omega
      rw [hlen, List.take_of_length_le (by omega : (sha (c :: (lenStr ++ input))).length ≤ r),
        List.take_of_length_le (by omega : (sha (c :: (lenStr ++ input))).length ≤ 64), hmap]

/-- C6.  `hash_drbg_df` emits `ceil(n_bytes / 64)` blocks, block `i`
(counter byte `i = 1, 2, ...`) being
`SHA512(counter || n_bytes*8 as 32-bit big-endian || input)`, truncated to
`n_bytes`; in particular `Hash_df("", 64) = SHA512(0x01 || 0x00000200 || "")`. -/
theorem hash_drbg_df_spec (sha : Bytes → Bytes)
    (hsha : ∀ x, (sha x).length = 64) (input : Bytes) (n : Nat)
    (hn : n ≤ 255 * 64) :
    hash_drbg_df sha input n = some (spec_hash_df sha input n) ∧
    hash_drbg_df sha [] 64 = some (sha [1, 0, 0, 2, 0]) := by
  constructor
  · unfold hash_drbg_df spec_hash_df
    rw [if_neg (by omega),
      hash_drbg_df_blocks_eq sha hsha _ input n 1 (le_refl 1) (by omega)]
    congr 2
    refine congrArg List.flatten (List.map_congr_left ?_)
    intro j _
    congr 2
    omega
  · unfold hash_drbg_df
    rw [if_neg (by norm_num)]
    have h1 : hash_drbg_df_blocks sha (beBytes32 (64 * 8)) [] 1 64
        = (((List.range ((64 + 63) / 64)).map
          fun j => sha ((1 + j) :: (beBytes32 (64 * 8) ++ []))).flatten).take 64 :=
      hash_drbg_df_blocks_eq sha hsha _ [] 64 1 (le_refl 1) (by norm_num)
    rw [h1]
    have hb : beBytes32 (64 * 8) = [0, 0, 2, 0] := by decide
    have hr1 : List.range 1 = [0] := rfl
    norm_num [hb]
    rw [hr1]
    simp only [List.map_cons, List.map_nil, List.flatten_cons, List.flatten_nil,
      List.append_nil]
    norm_num
    exact Nat.le_of_eq (hsha _)

/-- Witness for C6 at a concrete hash and request. -/
theorem hash_drbg_df_spec_witness :
    hash_drbg_df sha0 [5, 6] 100 = some (spec_hash_df sha0 [5, 6] 100) ∧
    hash_drbg_df sha0 [] 64 = some (sha0 [1, 0, 0, 2, 0]) :=
  hash_drbg_df_spec sha0 (fun _ => by simp [sha0]) [5, 6] 100 (by norm_num)

/-! ## Claim C9: XOR-accumulation of pool additions -/

/-- `AddByte` when the write position triggers neither a mix
(`w % RNG_POOL_MIX_INTERVAL != 0`) nor a wrap (`w != RNG_POOL_SIZE`). -/
theorem addByte_no_mix (h : Bytes → Bytes) (p : Bytes) (w x : Nat)
    (hm : w % RNG_POOL_MIX_INTERVAL ≠ 0) (hw : w ≠ RNG_POOL_SIZE) :
    AddByte h ⟨p, w⟩ x = ⟨p.set w ((p.getD w 0) ^^^ (x % 256)), w + 1⟩ := by
  simp [AddByte, hm, hw]

/-- An `AddBuf` run that triggers no mix and no wrap is a straight sequence
of XOR writes advancing the cursor. -/
theorem addBuf_no_mix (h : Bytes → Bytes) (L : Bytes) :
    ∀ (p : Bytes) (w : Nat),
      (∀ k < L.length, (w + k) % RNG_POOL_MIX_INTERVAL ≠ 0) →
      w + L.length ≤ RNG_POOL_SIZE →
      AddBuf h ⟨p, w⟩ L = ⟨writeBytes p w L, w + L.length⟩ := by
  induction L with
  | nil => intro p w _ _; simp [AddBuf, writeBytes]
  | cons x L IH =>
    intro p w hm hb
    have hw0 : w % RNG_POOL_MIX_INTERVAL ≠ 0 := by
      have := hm 0 (by simp)
      simpa using this
    have hps : RNG_POOL_SIZE % RNG_POOL_MIX_INTERVAL = 0 := by decide
    have hwP : w ≠ RNG_POOL_SIZE := fun e => hw0 (e ▸ hps)
    show AddBuf h (AddByte h ⟨p, w⟩ x) L = _
    rw [addByte_no_mix h p w x hw0 hwP]
    rw [IH _ (w + 1) ?hm1 ?hb1]
    case hm1 =>
      intro k hk
      have e : w + 1 + k = w + (k + 1) := by omega
      rw [e]
      exact hm (k + 1) (by simp; omega)
    case hb1 =>
      have : (x :: L).length = L.length + 1 := by simp
      omega
    show (⟨_, w + 1 + L.length⟩ : PoolCore) = ⟨writeBytes p w (x :: L), w + (x :: L).length⟩
    simp only [writeBytes, List.length_cons]
    congr 1
    omega

/-- Writes starting at `u` do not affect positions below `u`. -/
theorem writeBytes_getD_lt (L : Bytes) :
    ∀ (p : Bytes) (u i : Nat), i < u →
      (writeBytes p u L).getD i 0 = p.getD i 0 := by
  induction L with
  | nil => intro p u i _; rfl
  | cons x L IH =>
    intro p u i hi
    show (writeBytes (p.set u _) (u + 1) L).getD i 0 = _
    rw [IH _ (u + 1) i (by omega)]
    simp [List.getD_eq_getElem?_getD, List.getElem?_set_ne (by omega : u ≠ i)]

/-- A `set` below the write start commutes with a write run. -/
theorem writeBytes_set_comm (L : Bytes) :
    ∀ (p : Bytes) (u i v : Nat), i < u →
      writeBytes (p.set i v) u L = (writeBytes p u L).set i v := by
  induction L with
  | nil => intro p u i v _; rfl
  | cons x L IH =>
    intro p u i v hi
    show writeBytes ((p.set i v).set u (((p.set i v).getD u 0) ^^^ (x % 256))) (u + 1) L
        = ((writeBytes (p.set u _) (u + 1) L)).set i v
    have hg : (p.set i v).getD u 0 = p.getD u 0 := by
      simp [List.getD_eq_getElem?_getD, List.getElem?_set_ne (by omega : i ≠ u)]
    rw [hg, List.set_comm v _ p (by omega : i ≠ u), IH _ (u + 1) i v (by omega)]

theorem writeBytes_length (L : Bytes) :
    ∀ (p : Bytes) (u : Nat), (writeBytes p u L).length = p.length := by
  induction L with
  | nil => intro p u; rfl
  | cons x L IH => intro p u; show (writeBytes _ (u + 1) L).length = _; rw [IH]; simp

/-- Straight XOR writes accumulate: writing `A` and then `B` at the same
start offset equals writing the byte-wise XOR of `A` and `B`. -/
theorem writeBytes_additive (A : Bytes) :
    ∀ (B p : Bytes) (w : Nat), A.length = B.length → w + A.length ≤ p.length →
      (∀ a ∈ A, a < 256) → (∀ b ∈ B, b < 256) →
      writeBytes (writeBytes p w A) w B = writeBytes p w (List.zipWith Nat.xor A B) := by
  induction A with
  | nil =>
    intro B p w hl _ _ _
    have hB : B = [] := List.length_eq_zero.mp hl.symm
    subst hB
    rfl
  | cons a A IH =>
    intro B p w hl hlen hA hB
    obtain ⟨b, B, rfl⟩ : ∃ b B', B = b :: B' := by
      cases B with
      | nil => simp at hl
      | cons b B => exact ⟨b, B, rfl⟩
    have ha : a < 256 := hA a (by simp)
    have hb : b < 256 := hB b (by simp)
    have ha' : a % 256 = a := Nat.mod_eq_of_lt ha
    have hb' : b % 256 = b := Nat.mod_eq_of_lt hb
    have hab : (a ^^^ b) % 256 = a ^^^ b :=
      Nat.mod_eq_of_lt
        (Nat.xor_lt_two_pow (show a < 2 ^ 8 from ha) (show b < 2 ^ 8 from hb))
    have hwlt : w < p.length := by simp at hlen; omega
    show writeBytes (writeBytes (p.set w ((p.getD w 0) ^^^ (a % 256))) (w + 1) A) w (b :: B)
        = writeBytes (p.set w ((p.getD w 0) ^^^ ((a ^^^ b) % 256))) (w + 1)
            (List.zipWith Nat.xor A B)
    rw [ha', hab]
    show writeBytes
        ((writeBytes (p.set w ((p.getD w 0) ^^^ a)) (w + 1) A).set w
          (((writeBytes (p.set w ((p.getD w 0) ^^^ a)) (w + 1) A).getD w 0) ^^^ (b % 256)))
        (w + 1) B = _
    rw [hb', writeBytes_getD_lt A _ (w + 1) w (by omega)]
    have hgd : (p.set w ((p.getD w 0) ^^^ a)).getD w 0 = (p.getD w 0) ^^^ a := by
      rw [List.getD_eq_getElem?_getD, List.getElem?_set_self hwlt]
      rfl
    rw [hgd, writeBytes_set_comm A _ (w + 1) w _ (by omega), List.set_set,
      ← writeBytes_set_comm A _ (w + 1) w _ (by omega)]
    rw [IH B _ (w + 1) (by simpa using hl)
      (by rw [List.length_set]; simp at hlen; omega)
      (fun y hy => hA y (by simp [hy])) (fun y hy => hB y (by simp [hy]))]
    congr 2
    rw [Nat.xor_assoc]

/-- Counterexample for C9 as stated: over an all-zero pool with the write
cursor at offset 1, adding `[1]` and then `[2]` writes the two bytes at
offsets 1 and 2 (the cursor advances), while adding `[1 XOR 2] = [3]` writes
a single byte at offset 1: the resulting pool contents differ. -/
theorem addBuf_not_additive :
    (AddBuf h0 (AddBuf h0 ⟨pool0, 1⟩ [1]) [2]).pool
      ≠ (AddBuf h0 ⟨pool0, 1⟩ [1 ^^^ 2]).pool := by
  decide

/-- C9 (amended).  A pool byte write XOR-accumulates
(`pool[w] ^= x`, never an overwrite), so adding `A` and then `B` starting at
the same write offset — with the cursor restored between the two additions,
and with no write position triggering a mix (`(w+k) % MIX_INTERVAL != 0`) or
a cursor wrap — yields the same pool state as adding `A XOR B` once; as
stated, with the cursor advancing past `A`, the second buffer lands at the
following offsets instead, and the pools differ. -/
theorem addBuf_xor_additive (h : Bytes → Bytes) (A B p : Bytes) (w : Nat)
    (hl : A.length = B.length)
    (hm : ∀ k < A.length, (w + k) % RNG_POOL_MIX_INTERVAL ≠ 0)
    (hb : w + A.length ≤ RNG_POOL_SIZE) (hp : p.length = RNG_POOL_SIZE)
    (hA : ∀ a ∈ A, a < 256) (hB : ∀ b ∈ B, b < 256) :
    AddBuf h ⟨(AddBuf h ⟨p, w⟩ A).pool, w⟩ B
      = AddBuf h ⟨p, w⟩ (List.zipWith Nat.xor A B) := by
  have hzl : (List.zipWith Nat.xor A B).length = A.length := by
    rw [List.length_zipWith, hl, Nat.min_self]
  rw [addBuf_no_mix h A p w hm hb]
  rw [addBuf_no_mix h B _ w (by rw [← hl] at *; exact hm) (by omega)]
  rw [addBuf_no_mix h _ p w (by rw [hzl]; exact hm) (by omega)]
  rw [writeBytes_additive A B p w hl (by omega) hA hB, hzl, hl]

/-- Witness for C9 at concrete buffers over the all-zero pool. -/
theorem addBuf_xor_additive_witness :
    AddBuf h0 ⟨(AddBuf h0 ⟨pool0, 1⟩ [1, 7]).pool, 1⟩ [2, 5]
      = AddBuf h0 ⟨pool0, 1⟩ (List.zipWith Nat.xor [1, 7] [2, 5]) :=
  addBuf_xor_additive h0 [1, 7] [2, 5] pool0 1 (by decide) (by decide)
    (by decide) (by rw [pool0, RNG_POOL_SIZE, List.length_replicate]) (by decide) (by decide)

/-- Witness for C8 at concrete registers and a concrete saturated counter. -/
theorem trivium_reseed_counts_bits_witness :
    (triviumRand8Iter trivium0 (2 ^ 17) { regs := trivium0, ctr := 0 }).ctr
        = ((2 : Int) ^ 20) ∧
    (TriviumRand8 trivium0 { regs := trivium0, ctr := ((2 : Int) ^ 20) }).2
        = { regs := (triviumRounds 8 trivium0 0).2, ctr := 8 } ∧
    (2 ^ 17 : Nat) < 2 ^ 20 :=
  trivium_reseed_counts_bits trivium0 trivium0
    { regs := trivium0, ctr := ((2 : Int) ^ 20) } rfl

/-! ## Claim C2: fetch failure semantics -/

/-- Counterexample for C2 as stated: with the pool uninitialized
(`bDidRandPoolInit = FALSE`) and an in-range length, `RandFetchBytes` does
not return `FALSE` to the caller — it throws a fatal, process-terminating
error (`Throw(ERR_RAND_INIT, FATAL, ...)`). -/
theorem randFetchBytes_uninit_not_false_return :
    RandFetchBytes h0 pollId pollId fp0 fp0
        ⟨⟨pool0, 0⟩, 0, false, false, false⟩ 1 false = .fatal ∧
    isFalseReturn FetchResult.fatal = false := by
  constructor
  · decide
  · rfl

/-- C2 (amended).  `RandFetchBytes` returns `FALSE` with the state unchanged
when the requested length exceeds `RNG_POOL_SIZE`; when the pool was never
initialized (and the length is in range) it aborts through a fatal error
rather than returning `FALSE`; and when the slow poll runs and fails, the
call returns `FALSE` without writing the caller's buffer, leaving
`bDidSlowPoll` unchanged and consuming no pool state beyond the writes the
slow poll itself applied. -/
theorem randFetchBytes_failure_modes (h : Bytes → Bytes)
    (slowPoll userEv : PoolCore → PoolCore × Bool) (fp1 fp2 : FastPoll)
    (s : RngState) (len : Nat) (force : Bool) :
    (len > RNG_POOL_SIZE →
      RandFetchBytes h slowPoll userEv fp1 fp2 s len force = .fail s) ∧
    (len ≤ RNG_POOL_SIZE → s.didInit = false →
      RandFetchBytes h slowPoll userEv fp1 fp2 s len force = .fatal) ∧
    (len ≤ RNG_POOL_SIZE → s.didInit = true →
      (s.didSlowPoll = false ∨ force = true) → (slowPoll s.core).2 = false →
      RandFetchBytes h slowPoll userEv fp1 fp2 s len force
        = .fail { s with core := (slowPoll s.core).1 }) := by
  refine ⟨fun hgt => ?_, fun hle hinit => ?_, fun hle hinit hrun hfail => ?_⟩
  · unfold RandFetchBytes
    rw [if_pos hgt]
  · unfold RandFetchBytes
    rw [if_neg (by omega), if_pos hinit]
  · unfold RandFetchBytes
    rw [if_neg (by omega), if_neg (by rw [hinit]; simp)]
    unfold fetchSlow
    have hcond : s.didSlowPoll = false ∨ force = true := hrun
    rcases hcond with hc | hc
    · rw [if_pos (Or.inl hc)]
      simp [hfail]
    · rw [if_pos (Or.inr (by rw [hc]))]
      simp [hfail]

/-- Witness for C2: an oversized request, and a failing slow poll on an
initialized but never-slow-polled state. -/
theorem randFetchBytes_failure_modes_witness :
    RandFetchBytes h0 pollFail pollId fp0 fp0
        ⟨⟨pool0, 0⟩, 0, true, false, false⟩ 385 false
      = .fail ⟨⟨pool0, 0⟩, 0, true, false, false⟩ ∧
    RandFetchBytes h0 pollFail pollId fp0 fp0
        ⟨⟨pool0, 0⟩, 0, true, false, false⟩ 1 false
      = .fail { (⟨⟨pool0, 0⟩, 0, true, false, false⟩ : RngState) with
                  core := (pollFail (⟨pool0, 0⟩ : PoolCore)).1 } :=
  ⟨(randFetchBytes_failure_modes h0 pollFail pollId fp0 fp0
      ⟨⟨pool0, 0⟩, 0, true, false, false⟩ 385 false).1 (by decide),
   (randFetchBytes_failure_modes h0 pollFail pollId fp0 fp0
      ⟨⟨pool0, 0⟩, 0, true, false, false⟩ 1 false).2.2 (by decide) rfl
      (Or.inl rfl) rfl⟩

/-! ## Claim C1: the two-pass extraction of RandFetchBytes -/

theorem rng_pool_size_pos : 0 < RNG_POOL_SIZE := by decide

/-- The bytes read by one extraction pass are the pool bytes at the
advancing read cursor, with wraparound at `RNG_POOL_SIZE`. -/
theorem readPass_fst (pool : Bytes) :
    ∀ (len r : Nat), r ≤ RNG_POOL_SIZE →
      (readPass pool r len).1
        = (List.range len).map (fun i => pool.getD ((r + i) % RNG_POOL_SIZE) 0) := by
  intro len
  induction len with
  | zero => intro r _; simp [readPass]
  | succ n IH =>
    intro r hr
    have hr' : (if r = RNG_POOL_SIZE then 0 else r) = r % RNG_POOL_SIZE := by
      by_cases hcase : r = RNG_POOL_SIZE
      · simp [hcase]
      · have hlt : r < RNG_POOL_SIZE := by omega
        simp [hcase, Nat.mod_eq_of_lt hlt]
    have hr'le : (if r = RNG_POOL_SIZE then 0 else r) + 1 ≤ RNG_POOL_SIZE := by
      rw [hr']
      have := Nat.mod_lt r rng_pool_size_pos
      omega
    simp only [readPass]
    rw [IH _ hr'le, List.range_succ_eq_map, List.map_cons, List.map_map]
    congr 1
    · rw [hr']
      congr 1
    · apply List.map_congr_left
      intro i _
      simp only [Function.comp_apply, Nat.succ_eq_add_one]
      congr 1
      rw [hr']
      have e1 : r % RNG_POOL_SIZE + 1 + i = r % RNG_POOL_SIZE + (1 + i) := by omega
      have e2 : r + (i + 1) = r + (1 + i) := by omega
      rw [e1, e2, Nat.mod_add_mod]

/-- The read cursor after one extraction pass: still at most
`RNG_POOL_SIZE`, and congruent to `start + len` modulo `RNG_POOL_SIZE`. -/
theorem readPass_snd (pool : Bytes) :
    ∀ (len r : Nat), r ≤ RNG_POOL_SIZE →
      (readPass pool r len).2 ≤ RNG_POOL_SIZE ∧
      (readPass pool r len).2 % RNG_POOL_SIZE = (r + len) % RNG_POOL_SIZE := by
  intro len
  induction len with
  | zero => intro r hr; simp [readPass, hr]
  | succ n IH =>
    intro r hr
    have hr' : (if r = RNG_POOL_SIZE then 0 else r) = r % RNG_POOL_SIZE := by
      by_cases hcase : r = RNG_POOL_SIZE
      · simp [hcase]
      · have hlt : r < RNG_POOL_SIZE := by omega
        simp [hcase, Nat.mod_eq_of_lt hlt]
    have hr'le : (if r = RNG_POOL_SIZE then 0 else r) + 1 ≤ RNG_POOL_SIZE := by
      rw [hr']
      have := Nat.mod_lt r rng_pool_size_pos
      omega
    simp only [readPass]
    obtain ⟨ih1, ih2⟩ := IH ((if r = RNG_POOL_SIZE then 0 else r) + 1) hr'le
    refine ⟨ih1, ?_⟩
    rw [ih2, hr']
    have e1 : r % RNG_POOL_SIZE + 1 + n = r % RNG_POOL_SIZE + (1 + n) := by omega
    have e2 : r + (n + 1) = r + (1 + n) := by omega
    rw [e1, e2, Nat.mod_add_mod]

theorem zipWith_map_same (f : Nat → Nat → Nat) (g k : Nat → Nat) (l : List Nat) :
    List.zipWith f (l.map g) (l.map k) = l.map (fun x => f (g x) (k x)) := by
  induction l with
  | nil => rfl
  | cons x l IH => simp [IH]

/-- C1 (amended).  After the slow-poll/user-event preliminaries, a
successful `RandFetchBytes` performs: fast poll (probe additions ending in a
pool mix), a first pass that COPIES `pool[read_cursor..]` (with wraparound at
`POOL_SIZE`) into the caller's buffer — overwriting, not XORing, its prior
contents — inversion of every pool bit, a second fast poll, a second pass
that XORs the new pool contents into the buffer, and a final mix.  Each
delivered byte is the XOR of the two successive pool snapshots at the
advancing read cursor, independent of the caller's prior buffer contents. -/
theorem randFetchBytes_two_pass (h : Bytes → Bytes)
    (slowPoll userEv : PoolCore → PoolCore × Bool) (fp1 fp2 : FastPoll)
    (s : RngState) (len : Nat)
    (hinit : s.didInit = true) (hsp : s.didSlowPoll = true)
    (hue : s.userEventsEnabled = false)
    (hc1 : fp1.cngOk = true) (hc2 : fp2.cngOk = true)
    (hlen : len ≤ RNG_POOL_SIZE) (hr : s.r ≤ RNG_POOL_SIZE) :
    RandFetchBytes h slowPoll userEv fp1 fp2 s len false =
      .ok { s with
              core := ⟨RandPoolMix h (fetchSnap2 h fp1 fp2 s.core).pool,
                       (fetchSnap2 h fp1 fp2 s.core).w⟩,
              r := (readPass (fetchSnap2 h fp1 fp2 s.core).pool
                     (readPass (fetchSnap1 h fp1 s.core).pool s.r len).2 len).2 }
        ((List.range len).map fun i =>
          (fetchSnap1 h fp1 s.core).pool.getD ((s.r + i) % RNG_POOL_SIZE) 0 ^^^
          (fetchSnap2 h fp1 fp2 s.core).pool.getD ((s.r + len + i) % RNG_POOL_SIZE) 0) := by
  unfold RandFetchBytes
  rw [if_neg (by omega), if_neg (by rw [hinit]; simp)]
  unfold fetchSlow
  rw [if_neg (by rw [hsp]; simp)]
  unfold fetchUserEvents
  rw [if_neg (by rw [hue]; simp)]
  unfold fetchAfterPolls
  have hfp1 : RandFastPoll h fp1 s.core = some (fastPollOk h fp1 s.core) := by
    unfold RandFastPoll
    rw [if_pos hc1]
  have hfp2 : RandFastPoll h fp2
      ⟨invertPool (fastPollOk h fp1 s.core).pool, (fastPollOk h fp1 s.core).w⟩
      = some (fetchSnap2 h fp1 fp2 s.core) := by
    unfold RandFastPoll fetchSnap2 fetchSnap1
    rw [if_pos hc2]
  rw [hfp1]
  simp only [hfp2]
  have hsnd1 := (readPass_snd (fetchSnap1 h fp1 s.core).pool len s.r hr)
  have hfst1 := readPass_fst (fetchSnap1 h fp1 s.core).pool len s.r hr
  have hfst2 := readPass_fst (fetchSnap2 h fp1 fp2 s.core).pool len
    (readPass (fetchSnap1 h fp1 s.core).pool s.r len).2 hsnd1.1
  simp only [fetchSnap1] at *
  congr 1
  rw [hfst1, hfst2, zipWith_map_same]
  apply List.map_congr_left
  intro i _
  congr 2
  rw [← Nat.mod_add_mod, hsnd1.2, Nat.mod_add_mod]

/-- Counterexample for C1 as stated: over the all-zero pool, the delivered
byte is `0 XOR 255 = 255` (first snapshot byte XOR second snapshot byte),
while the spec's formula, which also XORs in the caller's prior buffer byte
`0xAA`, gives `85`: the code overwrites the caller's buffer in the first pass
instead of XORing into it. -/
theorem randFetchBytes_not_spec_formula :
    (fetchOut (RandFetchBytes h0 pollId pollId fp0 fp0
        ⟨⟨pool0, 0⟩, 0, true, true, false⟩ 1 false)).getD 0 0 = 255 ∧
    spec_fetch_byte [0xAA] (fetchSnap1 h0 fp0 ⟨pool0, 0⟩).pool
        (fetchSnap2 h0 fp0 fp0 ⟨pool0, 0⟩).pool 0 1 0 = 85 ∧
    (255 : Nat) ≠ 85 := by
  refine ⟨by decide, by decide, by decide⟩

/-- Witness for C1 at a concrete state (all-zero pool, cursor 0, length 1). -/
theorem randFetchBytes_two_pass_witness :
    RandFetchBytes h0 pollId pollId fp0 fp0
        ⟨⟨pool0, 0⟩, 0, true, true, false⟩ 1 false =
      .ok { (⟨⟨pool0, 0⟩, 0, true, true, false⟩ : RngState) with
              core := ⟨RandPoolMix h0 (fetchSnap2 h0 fp0 fp0 ⟨pool0, 0⟩).pool,
                       (fetchSnap2 h0 fp0 fp0 ⟨pool0, 0⟩).w⟩,
              r := (readPass (fetchSnap2 h0 fp0 fp0 ⟨pool0, 0⟩).pool
                     (readPass (fetchSnap1 h0 fp0 ⟨pool0, 0⟩).pool 0 1).2 1).2 }
        ((List.range 1).map fun i =>
          (fetchSnap1 h0 fp0 ⟨pool0, 0⟩).pool.getD ((0 + i) % RNG_POOL_SIZE) 0 ^^^
          (fetchSnap2 h0 fp0 fp0 ⟨pool0, 0⟩).pool.getD ((0 + 1 + i) % RNG_POOL_SIZE) 0) :=
  randFetchBytes_two_pass h0 pollId pollId fp0 fp0
    ⟨⟨pool0, 0⟩, 0, true, true, false⟩ 1 rfl rfl rfl rfl rfl (by decide) (by decide)

end Xrand
